import Mathlib

/-!
Verification of the rndout rate-shaped random output generator (src/main.go)
against its natural-language specification.

Modelling conventions:
* Go `int` values are embedded as `ℤ` (or `ℕ` where the source value is
  provably non-negative, such as the step counter).
* Go `float64` arithmetic (the logistic/ramp shapers, the Poisson sampler)
  is idealised as real arithmetic over `ℝ`, with `math.Exp` as `Real.exp`.
* `math/rand` draws are abstracted as explicit streams: `draws : ℕ → ℕ`
  for `r.Intn` results and `u : ℕ → ℝ` for `r.Float64` results, threaded
  in call order, so that every random-dependent function is a pure function
  of its draw stream.
* The output sink (`io.Writer`) is a function from call index and the byte
  slice passed to `Write` to the Go return pair `(n int, err error)`;
  errors are abstracted as `ℕ` codes.
* Loops without a structural decrease (`WriteN`'s `for n > 0`, the Poisson
  rejection loop, the emission loop) are given explicit fuel; theorems
  supply enough fuel for the behaviour they describe.
-/

namespace Rndout

/-- The fixed output alphabet from src/main.go line 15:
`"abcdefghijklmnopqrstuvwxyzABCDEFGHIJKLMNOPQRSTUVWXYZ0123456789.- "`. -/
def alphabet : String :=
  "abcdefghijklmnopqrstuvwxyzABCDEFGHIJKLMNOPQRSTUVWXYZ0123456789.- "

/-- The alphabet as a list of characters; `alphabet[i]` in Go is
`alphabetChars.getD i` here. -/
def alphabetChars : List Char := alphabet.toList

/-- One buffer built by `NewRandomOutput` (src/main.go lines 179-184):
`blockSize` bytes, byte `j` is `alphabet[r.Intn(len(alphabet))]` for the
`(i*blockSize + j)`-th draw of the stream, and then the final byte
(`bufs[i][blockSize-1]`) is overwritten with a newline. -/
def newBuffer (draws : ℕ → ℕ) (blockSize i : ℕ) : List Char :=
  (((List.range blockSize).map fun j =>
      alphabetChars.getD (draws (i * blockSize + j)) ' ')).set (blockSize - 1) '\n'

/-- The buffer pool built by `NewRandomOutput r n blockSize`
(src/main.go lines 177-191): `n` buffers, filled in order from the draw
stream. -/
def newRandomOutput (draws : ℕ → ℕ) (n blockSize : ℕ) : List (List Char) :=
  (List.range n).map fun i => newBuffer draws blockSize i

/-- `pickBuffer` (src/main.go lines 210-212): `ro.bufs[r.Intn(len(ro.bufs))]`,
with the `Intn` result supplied as `idx`. -/
def pickBuffer (pool : List (List Char)) (idx : ℕ) : List Char :=
  pool.getD idx []

/-- Result of a `WriteN` call: the chunks passed to the sink's `Write`
method, in order, and the returned value — `some none` models a `nil`
return, `some (some e)` models returning error `e`, and `none` means the
fuel ran out before the loop finished. -/
structure WNResult where
  chunks : List (List Char)
  res : Option (Option ℕ)
deriving DecidableEq

/-- The slice passed to `w.Write` for the current iteration of `WriteN`
(src/main.go lines 195-201): the whole picked buffer, or its length-`n`
suffix `buf[len(buf)-n:]` when `len(buf) > n`. -/
def chunkOf (bufs : ℕ → List Char) (k : ℕ) (n : ℤ) : List Char :=
  if ((bufs k).length : ℤ) > n then
    (bufs k).drop ((bufs k).length - n.toNat)
  else
    bufs k

/-- The loop of `RandomOutput.WriteN` (src/main.go lines 193-208), with the
successive `pickBuffer` results supplied by `bufs` and the sink by `sink`
(both indexed by the Write-call counter `k`).  Mirrors the source: while
`n > 0`, pick a buffer, write it (or its length-`n` suffix), return the
error immediately if the write failed, otherwise subtract the reported
write count `nr` from `n`; return `nil` once `n ≤ 0`. -/
def writeNAux (bufs : ℕ → List Char) (sink : ℕ → List Char → ℤ × Option ℕ) :
    ℕ → ℕ → ℤ → WNResult
  | 0, _, n => if n > 0 then ⟨[], none⟩ else ⟨[], some none⟩
  | fuel + 1, k, n =>
    if n > 0 then
      let chunk := chunkOf bufs k n
      let w := sink k chunk
      match w.2 with
      | some e => ⟨[chunk], some (some e)⟩
      | none =>
          let rest := writeNAux bufs sink fuel (k + 1) (n - w.1)
          ⟨chunk :: rest.chunks, rest.res⟩
    else ⟨[], some none⟩

/-- `RandomOutput.WriteN w n` with the pool from `NewRandomOutput` and the
`r.Intn(len(ro.bufs))` draws of `pickBuffer` supplied by `picks`. -/
def WriteN (pool : List (List Char)) (picks : ℕ → ℕ)
    (sink : ℕ → List Char → ℤ × Option ℕ) (fuel : ℕ) (n : ℤ) : WNResult :=
  writeNAux (fun k => pickBuffer pool (picks k)) sink fuel 0 n

/-- The rejection loop of `sampleSkips` (src/main.go lines 133-139): with
`p` the running product and `k` the counter, repeatedly set `p := p * u k`
for fresh uniform draws `u k`; as soon as `p ≤ l` return `k`, otherwise
increment `k` and continue.  Fuel bounds the number of iterations
inspected; `none` means the loop had not returned within the fuel. -/
noncomputable def sampleSkipsLoop (l : ℝ) (u : ℕ → ℝ) : ℕ → ℝ → ℕ → Option ℕ
  | _, _, 0 => none
  | k, p, fuel + 1 =>
    if p * u k ≤ l then some k else sampleSkipsLoop l u (k + 1) (p * u k) fuel

/-- `sampleSkips r skips skipProb` (src/main.go lines 124-140): returns 0
when `skips ≤ 0` or the gate draw `gate` (the first `r.Float64()`)
satisfies `gate ≥ skipProb`; otherwise runs the multiplicative rejection
loop with threshold `l = exp(-skips)` starting from `k = 0`, `p = 1`. -/
noncomputable def sampleSkips (skips : ℤ) (skipProb gate : ℝ) (u : ℕ → ℝ)
    (fuel : ℕ) : Option ℕ :=
  if skips ≤ 0 ∨ skipProb ≤ gate then some 0
  else sampleSkipsLoop (Real.exp (-(skips : ℝ))) u 0 1 fuel

/-- `LogisticShaper` (src/main.go lines 148-151): peak step `Mu` and the
spread parameter `Scale`, both Go ints. -/
structure LogisticShaper where
  Mu : ℤ
  Scale : ℤ

/-- `LogisticShaper.Fraction` (src/main.go lines 153-159):
`a = exp(-(step-Mu)/Scale)`, `b = Scale*(1+a)*(1+a)`, result
`4*Scale * (a/b)`, with the `float64` arithmetic idealised over `ℝ`. -/
noncomputable def LogisticShaper.Fraction (sh : LogisticShaper) (step : ℤ) : ℝ :=
  let a := Real.exp (-((step - sh.Mu : ℤ) : ℝ) / ((sh.Scale : ℤ) : ℝ))
  let b := ((sh.Scale : ℤ) : ℝ) * (1 + a) * (1 + a)
  ((4 * sh.Scale : ℤ) : ℝ) * (a / b)

/-- `RampShaper` (src/main.go lines 161-163). -/
structure RampShaper where
  PeakStep : ℤ

/-- `RampShaper.Fraction` (src/main.go lines 165-170):
`step/PeakStep` while `step < PeakStep`, else `1.0`. -/
noncomputable def RampShaper.Fraction (sh : RampShaper) (step : ℤ) : ℝ :=
  if step < sh.PeakStep then (step : ℝ) / (sh.PeakStep : ℝ) else 1

/-- One observable event of the emission loop: an `emit` event records that
the active branch ran at `step`, calling `out.WriteN` with byte count `n`
and getting back `res`; a `skipped` event records that the step fell in the
skipped trailing region of its slice and wrote nothing. -/
inductive Ev where
  | emit (step : ℕ) (n : ℤ) (res : WNResult)
  | skipped (step : ℕ)
deriving DecidableEq

/-- The emission loop of `main` (src/main.go lines 100-116).  `L` is
`opts.sliceLen`; `draw j` is the `sampleSkips` result drawn at the
boundary of slice `j`; `endFire s` tells whether the `<-end` branch of the
`select` fires at iteration `s` (see `selectBranch` for the race);
`nOf s` is the byte count `int(charsPerStep * shaper.Fraction(step))` for
step `s`; `wn s n` is the `WriteN` call, whose returned error the source
discards.  Each iteration recomputes `sliceIdx = step % L`, redraws
`skips` when `sliceIdx == 0`, returns when the end timer fires, and
otherwise emits when `sliceIdx < L - skips`.  The result pairs the list of
step events with whether the loop returned (`false` = fuel ran out with
the loop still running). -/
def runLoop (L : ℕ) (draw : ℕ → ℤ) (endFire : ℕ → Bool) (nOf : ℕ → ℤ)
    (wn : ℕ → ℤ → WNResult) : ℕ → ℤ → ℕ → List Ev × Bool
  | _, _, 0 => ([], false)
  | s, skips, fuel + 1 =>
    let sliceIdx := s % L
    let skips' := if sliceIdx = 0 then draw (s / L) else skips
    if endFire s then ([], true)
    else
      let ev := if (sliceIdx : ℤ) < (L : ℤ) - skips' then
          Ev.emit s (nOf s) (wn s (nOf s))
        else Ev.skipped s
      let rest := runLoop L draw endFire nOf wn (s + 1) skips' fuel
      (ev :: rest.1, rest.2)

/-- The `select` at src/main.go lines 107-115, following the Go language
specification: if exactly one of the two channels (`<-steps` /
`<-end`) is ready, that branch fires; if both are ready a uniform
pseudo-random choice picks one (`pick = true` selects the `<-end`
branch); if neither is ready the statement blocks (`none`).  The result
`some true` means the `<-end` branch fires, `some false` the `<-steps`
branch. -/
def selectBranch (stepReady endReady pick : Bool) : Option Bool :=
  if stepReady && endReady then some pick
  else if endReady then some true
  else if stepReady then some false
  else none

/-- The event the emission loop produces for step `s` once it is running:
an `emit` exactly when `s % L < L - draw (s / L)`. -/
def stepEvent (L : ℕ) (draw : ℕ → ℤ) (nOf : ℕ → ℤ) (wn : ℕ → ℤ → WNResult)
    (s : ℕ) : Ev :=
  if ((s % L : ℕ) : ℤ) < (L : ℤ) - draw (s / L) then
    Ev.emit s (nOf s) (wn s (nOf s))
  else Ev.skipped s

/-! ### Helper lemmas about `WriteN` -/

/-- A chunk passed to the sink by a `WriteN` iteration with `n > 0` and a
non-empty picked buffer is non-empty and no longer than `n`. -/
lemma chunkOf_length_pos_le (bufs : ℕ → List Char) (k : ℕ) (n : ℤ)
    (hb : bufs k ≠ []) (hn : 0 < n) :
    0 < (chunkOf bufs k n).length ∧ ((chunkOf bufs k n).length : ℤ) ≤ n := by
  unfold chunkOf
  split
  · next h =>
    rw [List.length_drop]
    have hlen : n.toNat ≤ (bufs k).length := by omega
    have : (bufs k).length - ((bufs k).length - n.toNat) = n.toNat := by omega
    rw [this]
    omega
  · next h =>
    have hpos : 0 < (bufs k).length := List.length_pos.mpr hb
    constructor
    · exact hpos
    · omega

/-- When every sink write succeeds and reports the full chunk length, the
`WriteN` loop returns `nil` and the chunks passed to the sink total exactly
`n` bytes, given fuel at least `n`. -/
lemma writeNAux_full_success (bufs : ℕ → List Char)
    (sink : ℕ → List Char → ℤ × Option ℕ)
    (hb : ∀ k, bufs k ≠ [])
    (hs : ∀ k c, sink k c = ((c.length : ℤ), none)) :
    ∀ (fuel k : ℕ) (n : ℤ), 0 ≤ n → n ≤ (fuel : ℤ) →
      (writeNAux bufs sink fuel k n).res = some none ∧
      (((writeNAux bufs sink fuel k n).chunks.flatten.length : ℤ) = n) := by
  intro fuel
  induction fuel with
  | zero =>
    intro k n hn hf
    have : n = 0 := by exact_mod_cast le_antisymm hf hn
    subst this
    simp [writeNAux]
  | succ fuel ih =>
    intro k n hn hf
    by_cases hpos : n > 0
    · have hchunk := chunkOf_length_pos_le bufs k n (hb k) hpos
      have hrec := ih (k + 1) (n - ((chunkOf bufs k n).length : ℤ))
        (by omega) (by push_cast at hf ⊢; omega)
      simp only [writeNAux, if_pos hpos, hs]
      refine ⟨hrec.1, ?_⟩
      have h2 := hrec.2
      simp only [List.flatten_cons, List.length_append]
      push_cast at h2 ⊢
      omega
    · have : n = 0 := by omega
      subst this
      simp [writeNAux]

/-! ### C3 -/

/-- C3: for every `n ≥ 0` and every sink whose `Write` calls succeed and
report the full length written, `RandomOutput.WriteN(w, n)` writes exactly
`n` bytes to the sink and returns `nil` (given fuel at least `n`, which
bounds the number of loop iterations; each successful iteration writes at
least one byte). -/
theorem C3_writeN_exact (pool : List (List Char)) (picks : ℕ → ℕ)
    (sink : ℕ → List Char → ℤ × Option ℕ) (fuel : ℕ) (n : ℤ)
    (hpool : ∀ b ∈ pool, b ≠ []) (hpick : ∀ k, picks k < pool.length)
    (hs : ∀ k c, sink k c = ((c.length : ℤ), none))
    (hn : 0 ≤ n) (hf : n ≤ (fuel : ℤ)) :
    (WriteN pool picks sink fuel n).res = some none ∧
    ((WriteN pool picks sink fuel n).chunks.flatten.length : ℤ) = n := by
  have hb : ∀ k, pickBuffer pool (picks k) ≠ [] := by
    intro k
    have hklt := hpick k
    unfold pickBuffer
    rw [List.getD_eq_getElem pool [] hklt]
    exact hpool _ (List.getElem_mem hklt)
  exact writeNAux_full_success _ sink hb hs fuel 0 n hn hf

/-- Witness for C3: a two-buffer write of 3 bytes from a pool holding one
buffer `['a', '\n']` returns `nil` and passes exactly 3 bytes to the sink. -/
theorem C3_writeN_exact_witness :
    (0 : ℤ) ≤ 3 ∧ (3 : ℤ) ≤ ((3 : ℕ) : ℤ) ∧
    ((WriteN [['a', '\n']] (fun _ => 0)
        (fun _ c => ((c.length : ℤ), none)) 3 3).res = some none ∧
      (((WriteN [['a', '\n']] (fun _ => 0)
        (fun _ c => ((c.length : ℤ), none)) 3 3).chunks.flatten.length : ℤ) = 3)) :=
  ⟨by decide, by decide,
    C3_writeN_exact [['a', '\n']] (fun _ => 0)
      (fun _ c => ((c.length : ℤ), none)) 3 3
      (by decide) (fun _ => Nat.one_pos) (fun _ _ => rfl) (by decide) (by decide)⟩

/-! ### C10 -/

/-- C10: for every `n ≤ 0`, `RandomOutput.WriteN(w, n)` makes no `Write`
call on the sink (the chunk list is empty, hence zero bytes written) and
returns `nil`, for every sink and every buffer stream: the `for n > 0`
loop body never runs. -/
theorem C10_writeN_nonpos_noop (bufs : ℕ → List Char)
    (sink : ℕ → List Char → ℤ × Option ℕ) (fuel k : ℕ) (n : ℤ)
    (hn : n ≤ 0) :
    writeNAux bufs sink fuel k n = ⟨[], some none⟩ := by
  have : ¬ n > 0 := by omega
  cases fuel with
  | zero => simp [writeNAux, this]
  | succ fuel => simp [writeNAux, this]

/-- Witness for C10: `WriteN` with `n = -1` performs no write and returns
`nil`. -/
theorem C10_writeN_nonpos_noop_witness :
    (-1 : ℤ) ≤ 0 ∧
    writeNAux (fun _ => ['a']) (fun _ _ => (0, some 3)) 5 0 (-1) =
      ⟨[], some none⟩ :=
  ⟨by decide,
    C10_writeN_nonpos_noop (fun _ => ['a']) (fun _ _ => (0, some 3)) 5 0 (-1)
      (by decide)⟩

/-! ### Helper lemmas about the emission loop -/

/-- `endFire` stream induced by the two-timer `select` race: the loop's
`<-end` branch fires at iteration `s` exactly when `selectBranch` resolves
to the end branch there. -/
def endFireOf (stepReady endReady pick : ℕ → Bool) (s : ℕ) : Bool :=
  decide (selectBranch (stepReady s) (endReady s) (pick s) = some true)

/-- As long as the end timer never fires, the emission loop runs one
iteration per fuel unit and produces exactly the event `stepEvent` for
each step, with the skip count in effect at step `s` being the draw taken
at the boundary of slice `s / L`.  The invariant on the incoming mutable
`skips` value holds trivially at step 0 because `0 % L = 0` forces a
redraw. -/
lemma runLoop_trace (L : ℕ) (draw : ℕ → ℤ) (endFire : ℕ → Bool)
    (nOf : ℕ → ℤ) (wn : ℕ → ℤ → WNResult)
    (hend : ∀ i, endFire i = false) :
    ∀ (fuel s : ℕ) (skips : ℤ), (s % L = 0 ∨ skips = draw (s / L)) →
      runLoop L draw endFire nOf wn s skips fuel =
        ((List.range' s fuel).map (stepEvent L draw nOf wn), false) := by
  intro fuel
  induction fuel with
  | zero =>
    intro s skips _
    simp [runLoop]
  | succ fuel ih =>
    intro s skips hinv
    have hsk : (if s % L = 0 then draw (s / L) else skips) = draw (s / L) := by
      rcases hinv with h | h
      · rw [if_pos h]
      · split <;> simp [h]
    have hnext : ((s + 1) % L = 0) ∨ (draw (s / L) = draw ((s + 1) / L)) := by
      by_cases h : (s + 1) % L = 0
      · exact Or.inl h
      · right
        have hnd : ¬ L ∣ (s + 1) := by
          intro hd
          obtain ⟨c, hc⟩ := hd
          exact h (by rw [hc, Nat.mul_mod_right])
        rw [Nat.succ_div, if_neg hnd]
        rfl
    simp only [runLoop, hend s, Bool.false_eq_true, if_false]
    rw [hsk, ih (s + 1) (draw (s / L)) hnext]
    rw [List.range'_succ, List.map_cons]
    rfl

/-! ### C2 -/

/-- C2: with the end timer never firing, the event the emission loop
produces for step `s` is an emission exactly when
`sliceIdx = s % sliceLen` satisfies `sliceIdx < sliceLen - skips`, where
`skips` is the value drawn at the current slice boundary; and for every
slice whose drawn skip count is at least `sliceLen`, every step of that
slice is skipped (emits zero bytes), never a negative number of steps. -/
theorem C2_slice_gate (L : ℕ) (draw : ℕ → ℤ) (endFire : ℕ → Bool)
    (nOf : ℕ → ℤ) (wn : ℕ → ℤ → WNResult) (fuel s : ℕ) (skips0 : ℤ)
    (_hL : 0 < L) (hend : ∀ i, endFire i = false) (hs : s < fuel) :
    (runLoop L draw endFire nOf wn 0 skips0 fuel).1[s]? =
      some (if ((s % L : ℕ) : ℤ) < (L : ℤ) - draw (s / L) then
        Ev.emit s (nOf s) (wn s (nOf s)) else Ev.skipped s) ∧
    ((L : ℤ) ≤ draw (s / L) →
      (runLoop L draw endFire nOf wn 0 skips0 fuel).1[s]? =
        some (Ev.skipped s)) := by
  have htr := runLoop_trace L draw endFire nOf wn hend fuel 0 skips0
    (Or.inl (Nat.zero_mod L))
  rw [htr]
  have hget : ((List.range' 0 fuel).map (stepEvent L draw nOf wn))[s]? =
      some (stepEvent L draw nOf wn s) := by
    rw [List.getElem?_map, ← List.range_eq_range', List.getElem?_range hs]
    rfl
  constructor
  · rw [hget]
    rfl
  · intro hdraw
    rw [hget]
    have hcond : ¬ (((s % L : ℕ) : ℤ) < (L : ℤ) - draw (s / L)) := by
      have : (0 : ℤ) ≤ ((s % L : ℕ) : ℤ) := Int.natCast_nonneg _
      omega
    unfold stepEvent
    rw [if_neg hcond]

/-- Witness for C2: with `sliceLen = 2` and a drawn skip count of 5 ≥ 2,
step 1 of the first slice produces a skip event. -/
theorem C2_slice_gate_witness :
    0 < 2 ∧ (1 : ℕ) < 3 ∧
    (runLoop 2 (fun _ => 5) (fun _ => false) (fun _ => 1)
        (fun _ _ => ⟨[], some none⟩) 0 0 3).1[1]? = some (Ev.skipped 1) :=
  ⟨by decide, by decide,
    (C2_slice_gate 2 (fun _ => 5) (fun _ => false) (fun _ => 1)
        (fun _ _ => ⟨[], some none⟩) 3 1 0
        (by decide) (fun _ => rfl) (by decide)).2 (by decide)⟩

/-! ### C1 -/

/-- Counterexample to C1 as stated: a loop run (sliceLen 1, end timer
never firing within the fuel, every step active) in which the modelled
`out.WriteN(os.Stdout, n)` call fails with error 7 at step 0 — yet step 1
is still executed (a second event follows) and the loop's result carries
no error to the caller (`main` discards `WriteN`'s return value at
src/main.go line 111, and the run flag is `false`, i.e. the loop did not
terminate). -/
theorem C1_counterexample :
    runLoop 1 (fun _ => 0) (fun _ => false) (fun _ => 1)
        (fun _ n => writeNAux (fun _ => ['a', '\n'])
          (fun _ _ => (0, some 7)) 1 0 n) 0 0 2
      = ([Ev.emit 0 1 ⟨[['\n']], some (some 7)⟩,
          Ev.emit 1 1 ⟨[['\n']], some (some 7)⟩], false) := by
  decide

/-- C1 amended: when a sink `Write` fails, `RandomOutput.WriteN` itself
stops immediately — the failing chunk is the last one passed to the sink
and the error is returned to `WriteN`'s caller — but `main` discards that
return value, so the emission loop does not terminate on write errors:
with the end timer silent it executes every step regardless of what the
`WriteN` calls return. -/
theorem C1_writeN_error_stops_writeN_but_not_loop :
    (∀ (bufs : ℕ → List Char) (sink : ℕ → List Char → ℤ × Option ℕ)
        (fuel k : ℕ) (n : ℤ) (e : ℕ),
      0 < n → (sink k (chunkOf bufs k n)).2 = some e →
        writeNAux bufs sink (fuel + 1) k n =
          ⟨[chunkOf bufs k n], some (some e)⟩) ∧
    (∀ (L : ℕ) (draw : ℕ → ℤ) (endFire : ℕ → Bool) (nOf : ℕ → ℤ)
        (wn : ℕ → ℤ → WNResult) (fuel : ℕ) (skips0 : ℤ),
      (∀ i, endFire i = false) →
        (runLoop L draw endFire nOf wn 0 skips0 fuel).1.length = fuel ∧
        (runLoop L draw endFire nOf wn 0 skips0 fuel).2 = false) := by
  constructor
  · intro bufs sink fuel k n e hn herr
    simp only [writeNAux, if_pos hn, herr]
  · intro L draw endFire nOf wn fuel skips0 hend
    rw [runLoop_trace L draw endFire nOf wn hend fuel 0 skips0
      (Or.inl (Nat.zero_mod L))]
    simp

/-- Witness for the amended C1: a failing write at a concrete input makes
`WriteN` return the error after exactly one `Write` call, and a loop whose
`WriteN` calls all fail still runs all 2 of its steps. -/
theorem C1_writeN_error_witness :
    (0 : ℤ) < 1 ∧
    writeNAux (fun _ => ['a']) (fun _ _ => (0, some 3)) 1 0 1 =
      ⟨[['a']], some (some 3)⟩ ∧
    (runLoop 1 (fun _ => 0) (fun _ => false) (fun _ => 1)
        (fun _ n => writeNAux (fun _ => ['a']) (fun _ _ => (0, some 3)) 1 0 n)
        0 0 2).1.length = 2 :=
  ⟨by decide,
    C1_writeN_error_stops_writeN_but_not_loop.1 (fun _ => ['a'])
      (fun _ _ => (0, some 3)) 0 0 1 3 (by decide) rfl,
    (C1_writeN_error_stops_writeN_but_not_loop.2 1 (fun _ => 0) (fun _ => false)
      (fun _ => 1)
      (fun _ n => writeNAux (fun _ => ['a']) (fun _ _ => (0, some 3)) 1 0 n)
      2 0 (fun _ => rfl)).1⟩

/-! ### C9 -/

/-- Counterexample to C9 as stated: at iteration 0 both the step tick and
the duration timer are ready, but the `select`'s pseudo-random pick
chooses the step branch (`selectBranch true true false = some false`, as
Go's `select` permits); the loop then emits at that step and does not
terminate — the duration signal did not take precedence. -/
theorem C9_counterexample :
    selectBranch true true false = some false ∧
    runLoop 1 (fun _ => 0)
        (endFireOf (fun _ => true) (fun _ => true) (fun _ => false))
        (fun _ => 1) (fun _ _ => ⟨[['x']], some none⟩) 0 0 1
      = ([Ev.emit 0 1 ⟨[['x']], some none⟩], false) := by
  decide

/-- C9 amended: when both timing signals are ready at the same wait point,
Go's `select` chooses between them by a uniform pseudo-random pick, so the
duration branch is not guaranteed precedence; the duration branch is
guaranteed to fire only when it alone is ready, and whenever it does fire
the loop terminates immediately, emitting nothing for that step. -/
theorem C9_select_race :
    (∀ p : Bool, selectBranch false true p = some true) ∧
    (∀ p : Bool, selectBranch true true p = some p) ∧
    (∀ (L : ℕ) (draw : ℕ → ℤ) (endFire : ℕ → Bool) (nOf : ℕ → ℤ)
        (wn : ℕ → ℤ → WNResult) (s : ℕ) (skips : ℤ) (fuel : ℕ),
      endFire s = true →
        runLoop L draw endFire nOf wn s skips (fuel + 1) = ([], true)) := by
  refine ⟨fun p => rfl, fun p => by cases p <;> rfl, ?_⟩
  intro L draw endFire nOf wn s skips fuel h
  simp [runLoop, h]

/-- Witness for the amended C9: a loop whose end timer fires at its first
wait point terminates at once with no events. -/
theorem C9_select_race_witness :
    (fun _ : ℕ => true) 0 = true ∧
    runLoop 3 (fun _ => 0) (fun _ => true) (fun _ => 1)
        (fun _ _ => ⟨[], some none⟩) 0 0 1 = ([], true) :=
  ⟨rfl,
    C9_select_race.2.2 3 (fun _ => 0) (fun _ => true) (fun _ => 1)
      (fun _ _ => ⟨[], some none⟩) 0 0 0 rfl⟩

/-! ### C5 -/

/-- Counterexample to C5 as stated: the alphabet at src/main.go line 15
(lowercase and uppercase letters, digits, `'.'`, `'-'` and space) has 65
characters, not 64: 26 + 26 + 10 + 3 = 65. -/
theorem C5_counterexample :
    alphabetChars.length = 65 ∧ ¬ alphabetChars.length = 64 := by
  constructor
  · rfl
  · decide

/-- C5 amended: every buffer constructed by `NewRandomOutput` has exactly
`blockSize` bytes, its final byte is a newline, and every other byte is
the alphabet character selected by the corresponding uniform
`r.Intn(len(alphabet))` draw — a member of the 65-character alphabet.
The buffers are immutable after construction in this embedding
(`writeNAux` only reads the buffer stream; no operation rewrites the
pool). -/
theorem C5_buffer_invariant (draws : ℕ → ℕ) (n blockSize : ℕ)
    (hb : 0 < blockSize) (hd : ∀ m, draws m < 65) :
    alphabetChars.length = 65 ∧
    ∀ buf ∈ newRandomOutput draws n blockSize,
      buf.length = blockSize ∧
      buf.getD (blockSize - 1) ' ' = '\n' ∧
      ∀ j, j < blockSize - 1 → buf.getD j ' ' ∈ alphabetChars := by
  refine ⟨rfl, ?_⟩
  intro buf hbuf
  obtain ⟨i, _, rfl⟩ := List.mem_map.mp hbuf
  have hlen : (newBuffer draws blockSize i).length = blockSize := by
    simp [newBuffer]
  refine ⟨hlen, ?_, ?_⟩
  · have hlt : blockSize - 1 < (newBuffer draws blockSize i).length := by
      omega
    rw [List.getD_eq_getElem _ _ hlt]
    unfold newBuffer
    exact List.getElem_set_self (h := by simpa [newBuffer] using hlt)
  · intro j hj
    have hjlt : j < (newBuffer draws blockSize i).length := by omega
    rw [List.getD_eq_getElem _ _ hjlt]
    unfold newBuffer
    rw [List.getElem_set_of_ne (by omega) _ (by simpa [newBuffer] using hjlt)]
    rw [List.getElem_map]
    simp only [List.getElem_range]
    have hdraw : draws (i * blockSize + j) < alphabetChars.length := hd _
    rw [List.getD_eq_getElem _ _ hdraw]
    exact List.getElem_mem hdraw

/-- Witness for the amended C5: in a 1-buffer pool with block size 2 and
all draws 0, the buffer is `['a', '\n']`: length 2, final byte newline,
first byte in the alphabet. -/
theorem C5_buffer_invariant_witness :
    0 < 2 ∧
    ∀ buf ∈ newRandomOutput (fun _ => 0) 1 2,
      buf.length = 2 ∧
      buf.getD (2 - 1) ' ' = '\n' ∧
      ∀ j, j < 2 - 1 → buf.getD j ' ' ∈ alphabetChars :=
  ⟨by decide,
    (C5_buffer_invariant (fun _ => 0) 1 2 (by decide)
      (fun _ => by show (0 : ℕ) < 65; decide)).2⟩

/-! ### C4 -/

/-- Characterization of the rejection loop: started at counter `j` with
running product `∏ i < j, u i`, it returns `k` whenever the product first
falls at or below `l` at the `(k+1)`-st multiplication — i.e. all of the
intermediate products up to `k` factors stay above `l` and the product of
`k + 1` factors is at or below `l`. -/
lemma sampleSkipsLoop_spec (l : ℝ) (u : ℕ → ℝ) :
    ∀ (fuel j k : ℕ), j ≤ k → k - j < fuel →
      (∏ i ∈ Finset.range (k + 1), u i) ≤ l →
      (∀ m, j < m → m ≤ k → l < ∏ i ∈ Finset.range m, u i) →
      sampleSkipsLoop l u j (∏ i ∈ Finset.range j, u i) fuel = some k := by
  intro fuel
  induction fuel with
  | zero =>
    intro j k _ hf _ _
    omega
  | succ fuel ih =>
    intro j k hjk hf hk hm
    have hstep : (∏ i ∈ Finset.range j, u i) * u j =
        ∏ i ∈ Finset.range (j + 1), u i := (Finset.prod_range_succ u j).symm
    by_cases hj : j = k
    · subst hj
      simp only [sampleSkipsLoop, hstep, if_pos hk]
    · have hjk' : j < k := lt_of_le_of_ne hjk hj
      have hgt : l < ∏ i ∈ Finset.range (j + 1), u i :=
        hm (j + 1) (Nat.lt_succ_self j) (by omega)
      simp only [sampleSkipsLoop, hstep, if_neg (not_le.mpr hgt)]
      exact ih (j + 1) k (by omega) (by omega) hk
        (fun m h1 h2 => hm m (by omega) h2)

/-- C4: when `expectedSkips > 0` and the probability gate passes
(`gate < skipProb`), `sampleSkips` returns exactly the number `k` of
multiplications of the running product by fresh uniform draws performed
before the multiplication that brings the product at or below
`exp(-expectedSkips)`: the product of the first `k + 1` draws is at or
below the threshold while every shorter non-empty product is above it
(given fuel beyond `k`). -/
theorem C4_sampleSkips_poisson (skips : ℤ) (skipProb gate : ℝ) (u : ℕ → ℝ)
    (fuel k : ℕ)
    (hskips : 0 < skips) (hgate : gate < skipProb)
    (hk : (∏ i ∈ Finset.range (k + 1), u i) ≤ Real.exp (-(skips : ℝ)))
    (hm : ∀ m, 0 < m → m ≤ k →
      Real.exp (-(skips : ℝ)) < ∏ i ∈ Finset.range m, u i)
    (hfuel : k < fuel) :
    sampleSkips skips skipProb gate u fuel = some k := by
  unfold sampleSkips
  rw [if_neg (by push_neg; exact ⟨by omega, hgate⟩)]
  have h0 : (1 : ℝ) = ∏ i ∈ Finset.range 0, u i := by simp
  rw [h0]
  exact sampleSkipsLoop_spec (Real.exp (-(skips : ℝ))) u fuel 0 k
    (Nat.zero_le k) (by omega) hk (fun m h1 h2 => hm m h1 h2)

/-- Witness for C4: with `expectedSkips = 1`, gate draw 0 against
probability 1, and all uniform draws `1/2`: `1/2 > e⁻¹` but
`1/4 ≤ e⁻¹`, so the sampler returns 1. -/
theorem C4_sampleSkips_poisson_witness :
    (0 : ℤ) < 1 ∧ (0 : ℝ) < 1 ∧ (1 : ℕ) < 2 ∧
    sampleSkips 1 1 0 (fun _ => (1 / 2 : ℝ)) 2 = some 1 := by
  have hexp4 : Real.exp 1 ≤ 4 :=
    le_of_lt (lt_trans Real.exp_one_lt_d9 (by norm_num))
  have hexp2 : (2 : ℝ) < Real.exp 1 :=
    lt_trans (by norm_num) Real.exp_one_gt_d9
  have hk : (∏ i ∈ Finset.range 2, (fun _ => (1 / 2 : ℝ)) i) ≤
      Real.exp (-((1 : ℤ) : ℝ)) := by
    rw [Finset.prod_const]
    push_cast
    rw [Real.exp_neg]
    calc ((1 : ℝ) / 2) ^ 2 = (4 : ℝ)⁻¹ := by norm_num
    _ ≤ (Real.exp 1)⁻¹ := by
        apply inv_anti₀ (Real.exp_pos 1) hexp4
  have hm : ∀ m, 0 < m → m ≤ 1 →
      Real.exp (-((1 : ℤ) : ℝ)) < ∏ i ∈ Finset.range m, (fun _ => (1 / 2 : ℝ)) i := by
    intro m h1 h2
    have : m = 1 := by omega
    subst this
    rw [Finset.prod_const]
    push_cast
    rw [Real.exp_neg]
    calc (Real.exp 1)⁻¹ < (2 : ℝ)⁻¹ := by
          apply inv_strictAnti₀ (by norm_num) hexp2
    _ = (1 / 2 : ℝ) ^ 1 := by norm_num
  exact ⟨by decide, by norm_num, by decide,
    C4_sampleSkips_poisson 1 1 0 (fun _ => (1 / 2 : ℝ)) 2 1
      (by decide) (by norm_num) hk hm (by decide)⟩

/-! ### C6 -/

/-- C6: for every integer step and every logistic shaper with
`Scale > 0`, the fraction `4*Scale*a / (Scale*(1+a)*(1+a))` with
`a = exp(-(step-Mu)/Scale)` lies in `[0, 1]` with no clamping: the
formula is self-bounding, since `Scale*(1+a)² - 4*Scale*a =
Scale*(1-a)² ≥ 0`. -/
theorem C6_logistic_fraction_bounds (sh : LogisticShaper) (step : ℤ)
    (h : 0 < sh.Scale) :
    0 ≤ sh.Fraction step ∧ sh.Fraction step ≤ 1 := by
  have hs : (0 : ℝ) < ((sh.Scale : ℤ) : ℝ) := by exact_mod_cast h
  simp only [LogisticShaper.Fraction]
  set a := Real.exp (-((step - sh.Mu : ℤ) : ℝ) / ((sh.Scale : ℤ) : ℝ)) with ha
  have hapos : 0 < a := Real.exp_pos _
  have h1a : (0 : ℝ) < 1 + a := by linarith
  have hb : 0 < ((sh.Scale : ℤ) : ℝ) * (1 + a) * (1 + a) :=
    mul_pos (mul_pos hs h1a) h1a
  have h4 : (0 : ℝ) ≤ ((4 * sh.Scale : ℤ) : ℝ) := by push_cast; linarith
  constructor
  · exact mul_nonneg h4 (div_nonneg hapos.le hb.le)
  · rw [← mul_div_assoc, div_le_one hb]
    push_cast
    nlinarith [mul_nonneg hs.le (sq_nonneg (1 - a))]

/-- Witness for C6: the logistic fraction at `Mu = 0`, `Scale = 1`,
step 3 lies in `[0, 1]`. -/
theorem C6_logistic_fraction_bounds_witness :
    (0 : ℤ) < 1 ∧
    (0 ≤ LogisticShaper.Fraction ⟨0, 1⟩ 3 ∧
      LogisticShaper.Fraction ⟨0, 1⟩ 3 ≤ 1) :=
  ⟨by decide, C6_logistic_fraction_bounds ⟨0, 1⟩ 3 (by decide)⟩

/-! ### C7 -/

/-- C7: for every logistic shaper with `Scale > 0`, the fraction at the
peak step `Mu` is exactly 1, and the curve is symmetric about `Mu`:
`Fraction (Mu + d) = Fraction (Mu - d)` for every integer offset `d`. -/
theorem C7_logistic_peak_symmetry (sh : LogisticShaper) (d : ℤ)
    (h : 0 < sh.Scale) :
    sh.Fraction sh.Mu = 1 ∧
    sh.Fraction (sh.Mu + d) = sh.Fraction (sh.Mu - d) := by
  have hs : (0 : ℝ) < ((sh.Scale : ℤ) : ℝ) := by exact_mod_cast h
  have hsne : ((sh.Scale : ℤ) : ℝ) ≠ 0 := ne_of_gt hs
  constructor
  · simp only [LogisticShaper.Fraction]
    rw [show ((sh.Mu - sh.Mu : ℤ) : ℝ) = 0 by push_cast; ring]
    rw [neg_zero, zero_div, Real.exp_zero]
    push_cast
    field_simp
    ring
  · simp only [LogisticShaper.Fraction]
    rw [show -(((sh.Mu + d) - sh.Mu : ℤ) : ℝ) / ((sh.Scale : ℤ) : ℝ) =
        -((d : ℝ) / ((sh.Scale : ℤ) : ℝ)) by push_cast; ring]
    rw [show -(((sh.Mu - d) - sh.Mu : ℤ) : ℝ) / ((sh.Scale : ℤ) : ℝ) =
        (d : ℝ) / ((sh.Scale : ℤ) : ℝ) by push_cast; ring]
    rw [Real.exp_neg]
    set E := Real.exp ((d : ℝ) / ((sh.Scale : ℤ) : ℝ)) with hE
    have hEpos : 0 < E := Real.exp_pos _
    have hEne : E ≠ 0 := ne_of_gt hEpos
    have h1E : (0 : ℝ) < 1 + E := by linarith
    have h1Einv : (0 : ℝ) < 1 + E⁻¹ := by positivity
    field_simp
    ring

/-- Witness for C7: at `Mu = 0`, `Scale = 1`, the fraction is 1 at step 0
and agrees at steps `0 + 2` and `0 - 2`. -/
theorem C7_logistic_peak_symmetry_witness :
    (0 : ℤ) < 1 ∧
    (LogisticShaper.Fraction ⟨0, 1⟩ 0 = 1 ∧
      LogisticShaper.Fraction ⟨0, 1⟩ (0 + 2) =
        LogisticShaper.Fraction ⟨0, 1⟩ (0 - 2)) :=
  ⟨by decide, C7_logistic_peak_symmetry ⟨0, 1⟩ 2 (by decide)⟩

/-! ### C8 -/

/-- C8: for every ramp shaper with `PeakStep > 0`, the fraction is
`step / PeakStep` below the peak step and `1.0` from the peak step on; in
particular `Fraction PeakStep = 1`, and the fraction is monotonically
non-decreasing on steps below the peak. -/
theorem C8_ramp_fraction (sh : RampShaper) (h : 0 < sh.PeakStep) :
    (∀ step : ℤ, step < sh.PeakStep →
      sh.Fraction step = (step : ℝ) / ((sh.PeakStep : ℤ) : ℝ)) ∧
    (∀ step : ℤ, sh.PeakStep ≤ step → sh.Fraction step = 1) ∧
    sh.Fraction sh.PeakStep = 1 ∧
    (∀ s1 s2 : ℤ, 0 ≤ s1 → s1 ≤ s2 → s2 < sh.PeakStep →
      sh.Fraction s1 ≤ sh.Fraction s2) := by
  have hp : (0 : ℝ) < ((sh.PeakStep : ℤ) : ℝ) := by exact_mod_cast h
  refine ⟨?_, ?_, ?_, ?_⟩
  · intro step hstep
    simp only [RampShaper.Fraction]
    rw [if_pos hstep]
  · intro step hstep
    simp only [RampShaper.Fraction]
    rw [if_neg (not_lt.mpr hstep)]
  · simp only [RampShaper.Fraction]
    rw [if_neg (lt_irrefl sh.PeakStep)]
  · intro s1 s2 _ h12 h2p
    simp only [RampShaper.Fraction]
    rw [if_pos (lt_of_le_of_lt h12 h2p), if_pos h2p]
    have h12' : (s1 : ℝ) ≤ (s2 : ℝ) := by exact_mod_cast h12
    exact (div_le_div_iff_of_pos_right hp).mpr h12'

/-- Witness for C8: the ramp shaper with `PeakStep = 2` reaches exactly 1
at step 2. -/
theorem C8_ramp_fraction_witness :
    (0 : ℤ) < 2 ∧ RampShaper.Fraction ⟨2⟩ 2 = 1 :=
  ⟨by decide, (C8_ramp_fraction ⟨2⟩ (by decide)).2.2.1⟩

end Rndout
